import Mathlib

/-!
Shallow embedding of the vision streaming coordinator of `4sight`
(`src/backend/app/routers/vision.py` and
`src/backend/app/services/vision_inference.py`).

Python dictionaries are modelled as association lists over a small value
type `PyVal` (enough to express Python truthiness of the values that
actually flow through the coordinator: `None`, strings, integers).
`asyncio` tasks are modelled by an oracle `InferOracle` that maps the
launch ordinal of a chunk to the outcome of awaiting its task: a success
dictionary, or the message of a raised exception.  The per-frame loop
body of `video_stream` becomes the pure function `step`; a whole
connection is `runVision` over a list of frame events, each event
carrying the frame payload, the monotonic-clock reading at receipt, and
whether the pending task reports `done()` at that moment.
-/

namespace Vision

/-- Model of the Python values that appear in ack payloads and result maps. -/
inductive PyVal where
  | vnone : PyVal
  | vstr : String → PyVal
  | vint : Int → PyVal
deriving DecidableEq, Repr

/-- Python truthiness of a `PyVal` (`None` and `""` and `0` are falsy). -/
def PyVal.truthy : PyVal → Bool
  | .vnone => false
  | .vstr s => !(s == "")
  | .vint n => !(n == 0)

/-- A Python dict, as an association list (keys unique in well-formed dicts). -/
abbrev Dict := List (String × PyVal)

/-- Python `d.get(k)`: the value at key `k`, if present. -/
def dictGet (d : Dict) (k : String) : Option PyVal :=
  (d.find? (fun p => p.1 == k)).map Prod.snd

/-- Python assignment `d[k] = v`: overwrite the entry at `k`, or append it. -/
def dictSet (d : Dict) (k : String) (v : PyVal) : Dict :=
  if d.any (fun p => p.1 == k) then
    d.map (fun p => if p.1 == k then (k, v) else p)
  else d ++ [(k, v)]

/-- Python `d.update(m)`: set every entry of `m` in `d`, in order. -/
def dictUpdate (d m : Dict) : Dict :=
  m.foldl (fun acc p => dictSet acc p.1 p.2) d

/-- Python truthiness of a dict: nonempty. -/
def dictTruthy (d : Dict) : Bool := !d.isEmpty

/-- The comprehension `{k: v for k, v in d.items() if v is not None}`. -/
def dropNoneValues (d : Dict) : Dict :=
  d.filter (fun p => !(p.2 == PyVal.vnone))

/-- Truthiness of `d.get(k)` (absent key behaves like `None`). -/
def dictGetTruthy (d : Dict) (k : String) : Bool :=
  match dictGet d k with
  | some v => v.truthy
  | none => false

/-- A frame payload: its raw bytes. -/
abbrev Frame := List Nat

/-- Append of `collections.deque` with `maxlen` set to `cap`: keep the last
`cap` elements after appending `x` on the right. -/
def dequeAppend (cap : Nat) (buf : List Frame) (x : Frame) : List Frame :=
  let b := buf ++ [x]
  b.drop (b.length - cap)

/-- Definition `VISION_CHUNK_SECONDS = max(float(os.getenv(..., "1.0")), 0.0)`:
the floor applied to the configured chunk duration (time modelled on `Int`). -/
def visionChunkSeconds (raw : Int) : Int := max raw 0

/-- Definition `VISION_MAX_BUFFER_FRAMES = max(int(os.getenv(..., "120")), 1)`:
the floor applied to the configured buffer capacity. -/
def visionMaxBufferFrames (raw : Int) : Nat := (max raw 1).toNat

/-- The configuration surface read by `video_stream`. -/
structure VisionConfig where
  chunkSeconds : Int
  maxBufferFrames : Nat
  prompt : String
deriving DecidableEq, Repr

/-- One inbound frame event: payload bytes, the monotonic-clock reading at
receipt, and whether the pending inference task (if any) reports `done()`
at this step. -/
structure FrameEv where
  data : Frame
  now : Int
  done : Bool
deriving DecidableEq, Repr

deriving instance DecidableEq for Except

/-- The outcome of awaiting an inference task: the returned dict, or the
message of the exception it raised. -/
abbrev Outcome := Except String Dict

/-- Task oracle: the outcome of the task launched for the k-th chunk
(0-based launch ordinal). -/
abbrev InferOracle := Nat → Outcome

/-- The mutable local state of `video_stream`'s loop. -/
structure ConnState where
  frameCount : Nat
  chunkCount : Nat
  inferenceFailures : Nat
  startTime : Int
  chunkWindowStart : Int
  buffered : List Frame
  pending : Option Nat
  latest : Option Dict
deriving DecidableEq, Repr

/-- State at `await ws.accept()`: counters zero, window anchored at the
connection start, empty buffer, empty slot, no pending result. -/
def initState (startTime : Int) : ConnState :=
  { frameCount := 0, chunkCount := 0, inferenceFailures := 0,
    startTime := startTime, chunkWindowStart := startTime,
    buffered := [], pending := none, latest := none }

/-- What a chunk launch records: the launch ordinal, the frames handed to
inference, the chunk window, and the prompt. -/
structure LaunchInfo where
  chunkIndex : Nat
  frames : List Frame
  startS : Int
  endS : Int
  prompt : String
deriving DecidableEq, Repr

/-- Observable log of one loop iteration: the ack payload sent, the task
outcome consumed this step (if any), and the chunk launched (if any). -/
structure StepLog where
  ack : Dict
  drained : Option Outcome
  launched : Option LaunchInfo
deriving DecidableEq, Repr

/-- Model of `_consume_inference_task`: awaiting the task returns its dict; a raised
exception is caught and converted to a dict with an `inference_error` field
holding `str(exc)`. -/
def consumeInferenceTask : Outcome → Dict
  | .ok d => d
  | .error msg => [("inference_error", PyVal.vstr msg)]

/-- The `pending_inference_task.done()` poll-and-drain block of the loop:
if a task is pending and reports done, consume it into
`latest_inference_result`, bump the failure counter when the consumed dict
has a truthy `inference_error` value, and clear the slot. -/
def pollPhase (O : InferOracle) (done : Bool) (s : ConnState) :
    ConnState × Option Outcome :=
  match s.pending with
  | some k =>
    if done then
      let r := consumeInferenceTask (O k)
      let failures :=
        if dictGetTruthy r "inference_error" then s.inferenceFailures + 1
        else s.inferenceFailures
      ({ s with latest := some r, inferenceFailures := failures,
                pending := none }, some (O k))
    else (s, none)
  | none => (s, none)

/-- The chunk-cut block of the loop: fire when the slot is empty, the
buffer is nonempty and the window elapsed at least the chunk duration;
on fire compute the chunk timestamps, drain the buffer, reset the window,
bump the chunk counter and fill the slot. -/
def schedulePhase (cfg : VisionConfig) (now : Int) (s : ConnState) :
    ConnState × Option LaunchInfo :=
  if s.pending.isNone && !s.buffered.isEmpty &&
      decide (now - s.chunkWindowStart ≥ cfg.chunkSeconds) then
    let chunkStartS := max (s.chunkWindowStart - s.startTime) 0
    let chunkEndS := max (now - s.startTime) chunkStartS
    let li : LaunchInfo :=
      { chunkIndex := s.chunkCount, frames := s.buffered,
        startS := chunkStartS, endS := chunkEndS, prompt := cfg.prompt }
    ({ s with buffered := [], chunkWindowStart := now,
              chunkCount := s.chunkCount + 1,
              pending := some s.chunkCount }, some li)
  else (s, none)

/-- The payload dict `{"frame": frame_count, "bytes": len(data)}`. -/
def baseAck (frameCount : Nat) (dataLen : Nat) : Dict :=
  [("frame", PyVal.vint frameCount), ("bytes", PyVal.vint dataLen)]

/-- The ack-composition block: merge the non-`None` fields of a truthy
pending result into the payload and clear it; a falsy (empty) pending
result is neither merged nor cleared. -/
def composePhase (dataLen : Nat) (s : ConnState) : ConnState × Dict :=
  let base := baseAck s.frameCount dataLen
  match s.latest with
  | some d =>
    if dictTruthy d then
      ({ s with latest := none }, dictUpdate base (dropNoneValues d))
    else (s, base)
  | none => (s, base)

/-- Frame receipt (`frame_count += 1`, buffer append) followed by the
poll-and-drain block. -/
def ingestPoll (cfg : VisionConfig) (O : InferOracle) (s : ConnState)
    (ev : FrameEv) : ConnState × Option Outcome :=
  pollPhase O ev.done
    { s with frameCount := s.frameCount + 1,
             buffered := dequeAppend cfg.maxBufferFrames s.buffered ev.data }

/-- One full iteration of `video_stream`'s loop on one inbound frame. -/
def step (cfg : VisionConfig) (O : InferOracle) (s : ConnState)
    (ev : FrameEv) : ConnState × StepLog :=
  let pr := ingestPoll cfg O s ev
  let sc := schedulePhase cfg ev.now pr.1
  let co := composePhase ev.data.length sc.1
  (co.1, { ack := co.2, drained := pr.2, launched := sc.2 })

/-- Run the loop over a list of frame events, collecting the per-step logs. -/
def runSteps (cfg : VisionConfig) (O : InferOracle) (s : ConnState) :
    List FrameEv → ConnState × List StepLog
  | [] => (s, [])
  | ev :: evs =>
    let r := step cfg O s ev
    let rest := runSteps cfg O r.1 evs
    (rest.1, r.2 :: rest.2)

/-- A whole connection: run from the initial state. -/
def runVision (cfg : VisionConfig) (O : InferOracle) (startTime : Int)
    (evs : List FrameEv) : ConnState × List StepLog :=
  runSteps cfg O (initState startTime) evs

/-- The dict a step's drained outcome was converted to (empty when the
step drained nothing). -/
def drainedDict (l : StepLog) : Dict :=
  match l.drained with
  | some out => consumeInferenceTask out
  | none => []

/-- Merge a consumed result into a payload the way the loop does:
only a truthy (nonempty) result is merged, through
`payload.update` of its non-`None` fields. -/
def mergeAck (base : Dict) (r : Dict) : Dict :=
  if dictTruthy r then dictUpdate base (dropNoneValues r) else base

/-- Number of steps of a log that launched a chunk. -/
def numLaunches (logs : List StepLog) : Nat :=
  (logs.filter (fun l => l.launched.isSome)).length

/-- Number of steps of a log that drained a task outcome. -/
def numDrains (logs : List StepLog) : Nat :=
  (logs.filter (fun l => l.drained.isSome)).length

/-- 1 when the slot is full, 0 when empty. -/
def pendCount (o : Option Nat) : Nat := if o.isSome then 1 else 0

/-- A raised Python exception at teardown: `asyncio.CancelledError` (a
`BaseException`, not caught by `except Exception`) or an ordinary
`Exception` with its message. -/
inductive PyExc where
  | cancelled : PyExc
  | exc : String → PyExc
deriving DecidableEq, Repr

/-- The kind of session `open_session` returned. -/
inductive SessionKind where
  | noop : SessionKind
  | modal : SessionKind
deriving DecidableEq, Repr

/-- Raise the given exception message, if there is one. -/
def raiseOpt : Option String → Except PyExc Unit
  | some m => .error (.exc m)
  | none => .ok ()

/-- A bare `except Exception: logger.exception(...)` handler: ordinary
exceptions are swallowed; `CancelledError` is not an `Exception` and
passes through. -/
def swallowExc : Except PyExc Unit → Except PyExc Unit
  | .error (.exc _) => .ok ()
  | r => r

/-- A `contextlib.suppress(asyncio.CancelledError)` block. -/
def suppressCancelled : Except PyExc Unit → Except PyExc Unit
  | .error .cancelled => .ok ()
  | r => r

/-- What can go wrong while releasing a Modal session's resources. -/
structure CloseBehavior where
  remoteCloseFails : Option String
  clientPresent : Bool
  clientCloseFails : Option String
deriving DecidableEq, Repr

/-- Model of `ModalVisionInferenceSession.close`: attempt the remote close
(swallowing any `Exception`), then, when a client is present, attempt the
client close (likewise swallowed). -/
def modalSessionClose (b : CloseBehavior) : Except PyExc Unit :=
  match swallowExc (raiseOpt b.remoteCloseFails) with
  | .error e => .error e
  | .ok _ =>
    if b.clientPresent then swallowExc (raiseOpt b.clientCloseFails)
    else .ok ()

/-- Session release: `NoopVisionInferenceSession.close` returns `None`;
the Modal session closes per `modalSessionClose`. -/
def sessionClose : SessionKind → CloseBehavior → Except PyExc Unit
  | .noop, _ => .ok ()
  | .modal, b => modalSessionClose b

/-- The connection summary logged at teardown. -/
structure StreamSummary where
  frames : Nat
  chunks : Nat
  failures : Nat
  fps : ℚ
deriving DecidableEq, Repr

/-- Average fps as computed at teardown: `frames / elapsed` when the
elapsed time is positive, otherwise `0.0`. -/
def summaryFps (frames : Nat) (elapsed : Int) : ℚ :=
  if elapsed > 0 then (frames : ℚ) / (elapsed : ℚ) else 0

/-- Awaiting a task after requesting its cancellation: the session
coroutines of this repository do not intercept cancellation, so the await
raises `CancelledError`. -/
def awaitCancelledTask : Except PyExc Unit := .error .cancelled

/-- Model of the `finally` block of `video_stream`: resolve the Inference
Slot (consume a completed task — exceptions already swallowed inside
`_consume_inference_task` — or cancel a running one and await it under
`contextlib.suppress(asyncio.CancelledError)`), then close the session,
then compute the summary. -/
def teardown (O : InferOracle) (sk : SessionKind) (cb : CloseBehavior)
    (pendingDone : Bool) (finalNow : Int) (s : ConnState) :
    Except PyExc StreamSummary :=
  let resolveSlot : Except PyExc Unit :=
    match s.pending with
    | some k =>
      if pendingDone then
        let _ := consumeInferenceTask (O k)
        .ok ()
      else suppressCancelled awaitCancelledTask
    | none => .ok ()
  match resolveSlot with
  | .error e => .error e
  | .ok _ =>
    match sessionClose sk cb with
    | .error e => .error e
    | .ok _ =>
      .ok { frames := s.frameCount, chunks := s.chunkCount,
            failures := s.inferenceFailures,
            fps := summaryFps s.frameCount (finalNow - s.startTime) }

/-- Header lookup on the raw header list of the connection. -/
def lookupHeader (hs : List (String × String)) (n : String) : Option String :=
  (hs.find? (fun p => p.1 == n)).map Prod.snd

/-- Model of `_header_value`: try the name as given, then lowercased, then
uppercased; a missing or empty value gives `None`, otherwise the value is
stripped of surrounding whitespace. -/
def headerValue (headers : Option (List (String × String))) (name : String) :
    Option String :=
  match headers with
  | none => none
  | some hs =>
    let v0 := lookupHeader hs name
    let v1 := match v0 with
      | some v => some v
      | none => lookupHeader hs name.toLower
    let v2 := match v1 with
      | some v => some v
      | none => lookupHeader hs name.toUpper
    match v2 with
    | none => none
    | some v => if v == "" then none else some v.trim

/-- Python `a or b` on optional strings: `None` and `""` are falsy. -/
def pyOrStr (a b : Option String) : Option String :=
  match a with
  | some s => if s == "" then b else some s
  | none => b

/-- Python `a or default` where the default is a truthy literal. -/
def pyOrStrD (a : Option String) (d : String) : String :=
  match a with
  | some s => if s == "" then d else s
  | none => d

/-- Model of the `ModalConfig` dataclass. -/
structure MConfig where
  tokenId : Option String
  tokenSecret : Option String
  appName : String
  className : String
deriving DecidableEq, Repr

/-- Model of `_resolve_modal_config`: each field falls back from the
connection header to the two environment variables (and, for the app and
class names, to the built-in default). -/
def resolveModalConfig (headers : Option (List (String × String)))
    (env : String → Option String) : MConfig :=
  { tokenId := pyOrStr (headerValue headers "x-modal-token-id")
      (pyOrStr (env "MODAL_TOKEN_ID") (env "FORESIGHT_MODAL_TOKEN_ID")),
    tokenSecret := pyOrStr (headerValue headers "x-modal-token-secret")
      (pyOrStr (env "MODAL_TOKEN_SECRET") (env "FORESIGHT_MODAL_TOKEN_SECRET")),
    appName := pyOrStrD (pyOrStr (headerValue headers "x-modal-app-name")
      (pyOrStr (env "MODAL_APP_NAME") (env "FORESIGHT_MODAL_APP_NAME")))
      "foresight-gemma3-vlm",
    className := pyOrStrD (pyOrStr (headerValue headers "x-modal-class-name")
      (pyOrStr (env "MODAL_CLASS_NAME") (env "FORESIGHT_MODAL_CLASS_NAME")))
      "Gemma3VLMSession" }

/-- Python falsiness of an optional credential string. -/
def strFalsy : Option String → Bool
  | none => true
  | some s => s == ""

/-- How the environment behaves during `open_session`: whether the Modal
SDK imports, whether `modal.Client.from_credentials` exists and is
callable, and which initialization steps raise (carrying their message). -/
structure ModalEnv where
  importOk : Bool
  factoryCallable : Bool
  factoryFails : Option String
  fromNameFails : Option String
  instantiateFails : Option String
  clientCloseFails : Option String
deriving DecidableEq, Repr

/-- Whether anything inside the `try` block of `open_session` raises. -/
def initFailure (m : ModalEnv) : Bool :=
  if m.factoryCallable then
    m.factoryFails.isSome || m.fromNameFails.isSome || m.instantiateFails.isSome
  else
    m.fromNameFails.isSome || m.instantiateFails.isSome

/-- Model of `ModalVisionInferenceClient.open_session`: missing or empty
credentials, a failing Modal SDK import, or any exception raised while
building the remote handle all fall back to the no-op session (the
exception handler also best-effort-closes the client, itself swallowed);
only a fully successful initialization yields a Modal-backed session. -/
def openSession (cfg : MConfig) (m : ModalEnv) : SessionKind :=
  if strFalsy cfg.tokenId || strFalsy cfg.tokenSecret then .noop
  else if !m.importOk then .noop
  else if m.factoryCallable then
    match m.factoryFails with
    | some _ => .noop
    | none =>
      match m.fromNameFails with
      | some _ => .noop
      | none =>
        match m.instantiateFails with
        | some _ => .noop
        | none => .modal
  else
    match m.fromNameFails with
    | some _ => .noop
    | none =>
      match m.instantiateFails with
      | some _ => .noop
      | none => .modal

/-- Session opening as `video_stream` performs it: resolve the config from
the connection headers and the environment, then open. -/
def openSessionFromHeaders (headers : Option (List (String × String)))
    (env : String → Option String) (m : ModalEnv) : SessionKind :=
  openSession (resolveModalConfig headers env) m

/-- Model of `NoopVisionInferenceSession.infer_chunk`: always succeeds
with the empty result map. -/
def noopInferChunk (frames : List Frame) (startTsS endTsS : Int)
    (prompt : String) : Outcome :=
  .ok []

/-- The task oracle induced by a connection running on the no-op session:
every launched chunk resolves to the empty map. -/
def noopOracle : InferOracle := fun _ => .ok []

/-- Buffer operations the coordinator performs on the Frame Buffer. -/
inductive BufOp where
  | append : Frame → BufOp
  | cut : BufOp
deriving DecidableEq, Repr

/-- Apply one buffer operation (an append, or a chunk cut clearing it). -/
def applyBufOp (cap : Nat) (buf : List Frame) : BufOp → List Frame
  | .append f => dequeAppend cap buf f
  | .cut => []

/-- Apply a sequence of buffer operations to a buffer. -/
def applyBufOps (cap : Nat) (buf : List Frame) (ops : List BufOp) :
    List Frame :=
  ops.foldl (applyBufOp cap) buf

/-- A pending result the loop can hold at the top of an iteration:
absent, or the falsy empty dict left behind by an empty inference result. -/
def LatestOk (s : ConnState) : Prop :=
  s.latest = none ∨ s.latest = some []

/-- The concrete configuration used in the counterexample runs: chunk
duration 0 (cut whenever the slot is free), default capacity, any prompt. -/
def cexCfg : VisionConfig := { chunkSeconds := 0, maxBufferFrames := 120, prompt := "p" }

/-- Two frames: the first launches a chunk, the second drains its task. -/
def cexEvs2 : List FrameEv := [⟨[0], 0, false⟩, ⟨[0, 1], 1, true⟩]

/-- An inference backend whose result map carries a `frame` key. -/
def cexFrameOracle : InferOracle := fun _ => .ok [("frame", PyVal.vint 999)]

/-- An inference backend whose invocation raises an exception with an
empty message (for example a bare `ValueError()`). -/
def cexEmptyMsgOracle : InferOracle := fun _ => .error ""

/-- First frame event of the counterexample runs. -/
def cexEv0 : FrameEv := { data := [0], now := 0, done := false }

/-- A later frame event whose `done` flag drains the pending task. -/
def cexEv1 : FrameEv := { data := [0], now := 1, done := true }

/-- The chunk launched by the very first frame under `cexCfg`. -/
def cexLaunch0 : LaunchInfo :=
  { chunkIndex := 0, frames := [[0]], startS := 0, endS := 0, prompt := "p" }

/-- The first step log of a `cexCfg` run on `cexEvs2` (same for every
oracle, since nothing is drained at the first step). -/
def cexLog0 : StepLog :=
  { ack := [("frame", PyVal.vint 1), ("bytes", PyVal.vint 1)],
    drained := none, launched := some cexLaunch0 }

/-- The second step log of the `cexCfg` run on `cexEvs2` under
`cexEmptyMsgOracle`. -/
def cexLog1err : StepLog :=
  { ack := [("frame", PyVal.vint 2), ("bytes", PyVal.vint 2),
            ("inference_error", PyVal.vstr "")],
    drained := some (Except.error ""),
    launched := some { chunkIndex := 1, frames := [[0, 1]], startS := 0,
                       endS := 1, prompt := "p" } }

/-- A mid-connection state with a chunk in flight and no pending result. -/
def cexPendState : ConnState :=
  { frameCount := 1, chunkCount := 1, inferenceFailures := 0, startTime := 0,
    chunkWindowStart := 0, buffered := [], pending := some 0, latest := none }

/-- An inference backend whose invocation raises with a normal message. -/
def cexBoomOracle : InferOracle := fun _ => .error "boom"

/-- A resolved Modal config with no token id. -/
def cexNoCredsConfig : MConfig :=
  { tokenId := none, tokenSecret := some "s",
    appName := "foresight-gemma3-vlm", className := "Gemma3VLMSession" }

/-- A fully healthy Modal environment. -/
def cexModalEnv : ModalEnv :=
  { importOk := true, factoryCallable := true, factoryFails := none,
    fromNameFails := none, instantiateFails := none, clientCloseFails := none }

lemma dictGet_dictSet (d : Dict) (k2 k : String) (v : PyVal) :
    dictGet (dictSet d k2 v) k = if k = k2 then some v else dictGet d k := by
  unfold dictSet
  split
  · rename_i hany
    unfold dictGet
    rw [List.find?_map]
    have hpred : ((fun p : String × PyVal => p.1 == k) ∘
        (fun p : String × PyVal => if p.1 == k2 then (k2, v) else p)) =
        fun p : String × PyVal => p.1 == k := by
      funext p
      by_cases h : p.1 = k2 <;> simp [h, Function.comp]
    rw [hpred]
    by_cases hk : k = k2
    · subst hk
      simp only [if_pos rfl]
      obtain ⟨p0, hmem, hp0⟩ := List.any_eq_true.mp hany
      have hsome : (d.find? (fun p : String × PyVal => p.1 == k)).isSome := by
        rw [List.find?_isSome]
        exact ⟨p0, hmem, hp0⟩
      obtain ⟨p1, hp1⟩ := Option.isSome_iff_exists.mp hsome
      have hkey := List.find?_some hp1
      rw [hp1]
      have h1 : p1.1 = k := by simpa using hkey
      simp [h1]
    · simp only [if_neg hk]
      cases hfind : d.find? (fun p : String × PyVal => p.1 == k) with
      | none => simp
      | some p1 =>
        have hkey := List.find?_some hfind
        have : p1.1 = k := by simpa using hkey
        simp [this, hk]
  · rename_i hany
    unfold dictGet
    rw [List.find?_append]
    by_cases hk : k = k2
    · subst hk
      have hnone : d.find? (fun p : String × PyVal => p.1 == k) = none := by
        rw [List.find?_eq_none]
        intro p hp hc
        simp only [List.any_eq_true] at hany
        exact hany ⟨p, hp, hc⟩
      simp [hnone]
    · cases hfind : d.find? (fun p : String × PyVal => p.1 == k) with
      | none => simp [hfind, Ne.symm hk, hk]
      | some p1 => simp [hfind, hk]

lemma dictGet_dictUpdate_ne (d m : Dict) (k : String)
    (h : ∀ p ∈ m, p.1 ≠ k) :
    dictGet (dictUpdate d m) k = dictGet d k := by
  induction m generalizing d with
  | nil => rfl
  | cons p t ih =>
    show dictGet (dictUpdate (dictSet d p.1 p.2) t) k = dictGet d k
    rw [ih _ (fun q hq => h q (List.mem_cons_of_mem _ hq))]
    rw [dictGet_dictSet]
    have : k ≠ p.1 := Ne.symm (h p (List.mem_cons_self _ _))
    simp [this]

lemma dictGet_baseAck_frame (n len : Nat) :
    dictGet (baseAck n len) "frame" = some (PyVal.vint n) := by
  simp [dictGet, baseAck]

lemma dictGet_baseAck_bytes (n len : Nat) :
    dictGet (baseAck n len) "bytes" = some (PyVal.vint len) := by
  simp [dictGet, baseAck, List.find?]

lemma mergeAck_nil (base : Dict) : mergeAck base [] = base := rfl

lemma dropNoneValues_keys (d : Dict) (p : String × PyVal)
    (h : p ∈ dropNoneValues d) : p ∈ d :=
  List.mem_of_mem_filter h




lemma pollPhase_not_done (O : InferOracle) (s : ConnState) :
    pollPhase O false s = (s, none) := by
  rcases hp : s.pending with _ | k <;> simp [pollPhase, hp]

lemma pollPhase_no_pending (O : InferOracle) (done : Bool) (s : ConnState)
    (h : s.pending = none) : pollPhase O done s = (s, none) := by
  simp [pollPhase, h]

lemma pollPhase_drain (O : InferOracle) (s : ConnState) (k : Nat)
    (h : s.pending = some k) :
    pollPhase O true s =
      ({ s with
          latest := some (consumeInferenceTask (O k)),
          inferenceFailures :=
            (if dictGetTruthy (consumeInferenceTask (O k)) "inference_error"
             then s.inferenceFailures + 1 else s.inferenceFailures),
          pending := none }, some (O k)) := by
  simp [pollPhase, h]

lemma schedulePhase_state (cfg : VisionConfig) (now : Int) (s : ConnState) :
    (schedulePhase cfg now s).1 = s ∨
      ((schedulePhase cfg now s).1 =
        { s with buffered := [], chunkWindowStart := now,
                 chunkCount := s.chunkCount + 1,
                 pending := some s.chunkCount } ∧ s.pending = none) := by
  unfold schedulePhase
  split
  · rename_i h
    right
    refine ⟨rfl, ?_⟩
    rcases hp : s.pending with _ | k
    · rfl
    · rw [hp] at h; simp at h
  · left; rfl

lemma composePhase_state (n : Nat) (s : ConnState) :
    (composePhase n s).1 = s ∨ (composePhase n s).1 = { s with latest := none } := by
  unfold composePhase
  rcases h : s.latest with _ | d
  · left; rfl
  · by_cases hd : dictTruthy d
    · right; simp [hd]
    · left; simp [hd]

lemma composePhase_base (n : Nat) (s : ConnState) (h : LatestOk s) :
    composePhase n s = (s, baseAck s.frameCount n) := by
  rcases h with h | h <;> simp [composePhase, h, dictTruthy]

lemma composePhase_truthy (n : Nat) (s : ConnState) (d : Dict)
    (h : s.latest = some d) (hd : d ≠ []) :
    composePhase n s =
      ({ s with latest := none },
        dictUpdate (baseAck s.frameCount n) (dropNoneValues d)) := by
  simp [composePhase, h, dictTruthy, hd]


lemma schedulePhase_no_fire (cfg : VisionConfig) (now : Int) (s : ConnState)
    (k : Nat) (h : s.pending = some k) : schedulePhase cfg now s = (s, none) := by
  simp [schedulePhase, h]

lemma step_unfold (cfg : VisionConfig) (O : InferOracle) (s : ConnState)
    (ev : FrameEv) :
    step cfg O s ev =
      ((composePhase ev.data.length
          (schedulePhase cfg ev.now (ingestPoll cfg O s ev).1).1).1,
        { ack := (composePhase ev.data.length
            (schedulePhase cfg ev.now (ingestPoll cfg O s ev).1).1).2,
          drained := (ingestPoll cfg O s ev).2,
          launched := (schedulePhase cfg ev.now (ingestPoll cfg O s ev).1).2 }) :=
  rfl

lemma step_ack_spec (cfg : VisionConfig) (O : InferOracle) (s : ConnState)
    (ev : FrameEv) (h : LatestOk s) :
    (step cfg O s ev).2.ack =
      mergeAck (baseAck (s.frameCount + 1) ev.data.length)
        (drainedDict (step cfg O s ev).2) ∧
    LatestOk (step cfg O s ev).1 ∧
    (∀ out, (step cfg O s ev).2.drained = some out →
      ∃ k, s.pending = some k ∧ out = O k ∧ ev.done = true) := by
  have hs1 : (ingestPoll cfg O s ev) = pollPhase O ev.done
      { s with frameCount := s.frameCount + 1,
               buffered := dequeAppend cfg.maxBufferFrames s.buffered ev.data } := rfl
  rcases hp : s.pending with _ | k
  · have hpoll : ingestPoll cfg O s ev =
        ({ s with frameCount := s.frameCount + 1,
                  buffered := dequeAppend cfg.maxBufferFrames s.buffered ev.data }, none) := by
      rw [hs1]; exact pollPhase_no_pending O ev.done _ hp
    rw [step_unfold, hpoll]
    rcases schedulePhase_state cfg ev.now
        { s with frameCount := s.frameCount + 1,
                 buffered := dequeAppend cfg.maxBufferFrames s.buffered ev.data } with h2 | ⟨h2, _⟩ <;>
      simp only [h2] <;>
      rcases h with hl | hl <;>
      rw [composePhase_base _ _ (by simp [LatestOk, hl])] <;>
      simp [drainedDict, mergeAck, dictTruthy, LatestOk, hl]
  · rcases hd : ev.done
    · have hpoll : ingestPoll cfg O s ev =
          ({ s with frameCount := s.frameCount + 1,
                    buffered := dequeAppend cfg.maxBufferFrames s.buffered ev.data }, none) := by
        rw [hs1, hd]; exact pollPhase_not_done O _
      rw [step_unfold, hpoll]
      rw [schedulePhase_no_fire _ _ _ k (by simp [hp])]
      rcases h with hl | hl <;>
        rw [composePhase_base _ _ (by simp [LatestOk, hl])] <;>
        simp [drainedDict, mergeAck, dictTruthy, LatestOk, hl]
    · have hpoll : ingestPoll cfg O s ev =
          ({ s with frameCount := s.frameCount + 1,
                    buffered := dequeAppend cfg.maxBufferFrames s.buffered ev.data,
                    latest := some (consumeInferenceTask (O k)),
                    inferenceFailures :=
                      (if dictGetTruthy (consumeInferenceTask (O k)) "inference_error"
                       then s.inferenceFailures + 1 else s.inferenceFailures),
                    pending := none }, some (O k)) := by
        rw [hs1, hd]; exact pollPhase_drain O _ k hp
      rw [step_unfold, hpoll]
      rcases schedulePhase_state cfg ev.now
          { s with frameCount := s.frameCount + 1,
                   buffered := dequeAppend cfg.maxBufferFrames s.buffered ev.data,
                   latest := some (consumeInferenceTask (O k)),
                   inferenceFailures :=
                     (if dictGetTruthy (consumeInferenceTask (O k)) "inference_error"
                      then s.inferenceFailures + 1 else s.inferenceFailures),
                   pending := none } with h2 | ⟨h2, _⟩ <;>
        simp only [h2] <;>
        by_cases hr : consumeInferenceTask (O k) = []
      · rw [composePhase_base _ _ (by simp [LatestOk, hr])]
        simp [drainedDict, mergeAck, dictTruthy, LatestOk, hr, hp]
      · rw [composePhase_truthy _ _ (consumeInferenceTask (O k)) (by simp) hr]
        simp [drainedDict, mergeAck, dictTruthy, LatestOk, hr, hp]
      · rw [composePhase_base _ _ (by simp [LatestOk, hr])]
        simp [drainedDict, mergeAck, dictTruthy, LatestOk, hr, hp]
      · rw [composePhase_truthy _ _ (consumeInferenceTask (O k)) (by simp) hr]
        simp [drainedDict, mergeAck, dictTruthy, LatestOk, hr, hp]


lemma pollPhase_proj (O : InferOracle) (done : Bool) (s : ConnState) :
    (pollPhase O done s).1.chunkCount = s.chunkCount ∧
    (pollPhase O done s).1.chunkWindowStart = s.chunkWindowStart ∧
    (pollPhase O done s).1.startTime = s.startTime ∧
    (pollPhase O done s).1.frameCount = s.frameCount ∧
    (pollPhase O done s).1.buffered = s.buffered := by
  rcases hp : s.pending with _ | k <;> cases done <;> simp [pollPhase, hp]

lemma composePhase_proj (n : Nat) (s : ConnState) :
    (composePhase n s).1.chunkCount = s.chunkCount ∧
    (composePhase n s).1.chunkWindowStart = s.chunkWindowStart ∧
    (composePhase n s).1.startTime = s.startTime ∧
    (composePhase n s).1.frameCount = s.frameCount ∧
    (composePhase n s).1.buffered = s.buffered ∧
    (composePhase n s).1.pending = s.pending ∧
    (composePhase n s).1.inferenceFailures = s.inferenceFailures := by
  rcases composePhase_state n s with h | h <;> rw [h] <;> simp

lemma scheduleCond_iff (cfg : VisionConfig) (now : Int) (s : ConnState) :
    ((s.pending.isNone && !s.buffered.isEmpty &&
      decide (now - s.chunkWindowStart ≥ cfg.chunkSeconds)) = true) ↔
    (s.pending = none ∧ s.buffered ≠ [] ∧
      now - s.chunkWindowStart ≥ cfg.chunkSeconds) := by
  simp [Option.isNone_iff_eq_none, and_assoc]

lemma schedulePhase_cases (cfg : VisionConfig) (now : Int) (s : ConnState) :
    schedulePhase cfg now s = (s, none) ∨
    (s.pending = none ∧ s.buffered ≠ [] ∧ now - s.chunkWindowStart ≥ cfg.chunkSeconds ∧
      schedulePhase cfg now s =
        ({ s with buffered := [], chunkWindowStart := now,
                  chunkCount := s.chunkCount + 1,
                  pending := some s.chunkCount },
          some { chunkIndex := s.chunkCount, frames := s.buffered,
                 startS := max (s.chunkWindowStart - s.startTime) 0,
                 endS := max (now - s.startTime)
                   (max (s.chunkWindowStart - s.startTime) 0),
                 prompt := cfg.prompt })) := by
  unfold schedulePhase
  split
  · rename_i hc
    rw [scheduleCond_iff] at hc
    right
    exact ⟨hc.1, hc.2.1, hc.2.2, rfl⟩
  · left; rfl

lemma schedulePhase_fire_iff (cfg : VisionConfig) (now : Int) (s : ConnState) :
    (schedulePhase cfg now s).2.isSome = true ↔
      (s.pending = none ∧ s.buffered ≠ [] ∧
        now - s.chunkWindowStart ≥ cfg.chunkSeconds) := by
  unfold schedulePhase
  split <;> rename_i hc <;> rw [scheduleCond_iff] at hc
  · simpa using hc
  · simpa using hc

lemma step_frameCount (cfg : VisionConfig) (O : InferOracle) (s : ConnState)
    (ev : FrameEv) : (step cfg O s ev).1.frameCount = s.frameCount + 1 := by
  rw [step_unfold]
  have h1 := (composePhase_proj ev.data.length
    (schedulePhase cfg ev.now (ingestPoll cfg O s ev).1).1).2.2.2.1
  rw [h1]
  rcases schedulePhase_state cfg ev.now (ingestPoll cfg O s ev).1 with h2 | ⟨h2, _⟩ <;>
    rw [h2] <;> exact (pollPhase_proj O ev.done _).2.2.2.1


lemma ingestPoll_cases (cfg : VisionConfig) (O : InferOracle) (s : ConnState)
    (ev : FrameEv) :
    (ingestPoll cfg O s ev =
      ({ s with frameCount := s.frameCount + 1,
                buffered := dequeAppend cfg.maxBufferFrames s.buffered ev.data },
        none) ∧ (s.pending = none ∨ ev.done = false)) ∨
    (∃ k, s.pending = some k ∧ ev.done = true ∧
      ingestPoll cfg O s ev =
        ({ s with
            frameCount := s.frameCount + 1,
            buffered := dequeAppend cfg.maxBufferFrames s.buffered ev.data,
            latest := some (consumeInferenceTask (O k)),
            inferenceFailures :=
              (if dictGetTruthy (consumeInferenceTask (O k)) "inference_error"
               then s.inferenceFailures + 1 else s.inferenceFailures),
            pending := none }, some (O k))) := by
  have hs1 : ingestPoll cfg O s ev = pollPhase O ev.done
      { s with frameCount := s.frameCount + 1,
               buffered := dequeAppend cfg.maxBufferFrames s.buffered ev.data } := rfl
  rcases hp : s.pending with _ | k
  · left
    refine ⟨?_, Or.inl rfl⟩
    rw [hs1]
    simp [pollPhase, hp]
  · rcases hd : ev.done
    · left
      refine ⟨?_, Or.inr rfl⟩
      rw [hs1, hd]
      simp [pollPhase, hp]
    · right
      refine ⟨k, rfl, rfl, ?_⟩
      rw [hs1, hd]
      simp [pollPhase, hp]

lemma composePhase_pending (n : Nat) (s : ConnState) :
    (composePhase n s).1.pending = s.pending := by
  rcases composePhase_state n s with h | h <;> rw [h]

lemma composePhase_buffered (n : Nat) (s : ConnState) :
    (composePhase n s).1.buffered = s.buffered := by
  rcases composePhase_state n s with h | h <;> rw [h]

lemma composePhase_chunkCount (n : Nat) (s : ConnState) :
    (composePhase n s).1.chunkCount = s.chunkCount := by
  rcases composePhase_state n s with h | h <;> rw [h]

lemma composePhase_chunkWindowStart (n : Nat) (s : ConnState) :
    (composePhase n s).1.chunkWindowStart = s.chunkWindowStart := by
  rcases composePhase_state n s with h | h <;> rw [h]

lemma composePhase_failures (n : Nat) (s : ConnState) :
    (composePhase n s).1.inferenceFailures = s.inferenceFailures := by
  rcases composePhase_state n s with h | h <;> rw [h]

lemma schedulePhase_failures (cfg : VisionConfig) (now : Int) (s : ConnState) :
    (schedulePhase cfg now s).1.inferenceFailures = s.inferenceFailures := by
  rcases schedulePhase_state cfg now s with h | ⟨h, _⟩ <;> rw [h]

lemma step_counts (cfg : VisionConfig) (O : InferOracle) (s : ConnState)
    (ev : FrameEv) :
    pendCount (step cfg O s ev).1.pending +
      (if (step cfg O s ev).2.drained.isSome then 1 else 0) =
    pendCount s.pending +
      (if (step cfg O s ev).2.launched.isSome then 1 else 0) := by
  rw [step_unfold]
  simp only [composePhase_pending]
  have hsch := schedulePhase_cases cfg ev.now (ingestPoll cfg O s ev).1
  rcases ingestPoll_cases cfg O s ev with ⟨hP, hor⟩ | ⟨k, hp, hd, hP⟩ <;>
    rw [hP] at hsch ⊢
  · rcases hsch with hs | ⟨hsp, _, _, hs⟩ <;> rw [hs]
    · simp [pendCount]
    · simp only [] at hsp
      simp [pendCount, show s.pending = none from hsp]
  · rcases hsch with hs | ⟨hsp, _, _, hs⟩ <;> rw [hs] <;> simp [pendCount, hp]

lemma step_launch_drain (cfg : VisionConfig) (O : InferOracle) (s : ConnState)
    (ev : FrameEv) (h : (step cfg O s ev).2.launched.isSome = true) :
    (step cfg O s ev).2.drained.isSome = s.pending.isSome := by
  rw [step_unfold] at h ⊢
  have hsch := schedulePhase_cases cfg ev.now (ingestPoll cfg O s ev).1
  rcases ingestPoll_cases cfg O s ev with ⟨hP, hor⟩ | ⟨k, hp, hd, hP⟩ <;>
    rw [hP] at hsch h ⊢
  · rcases hsch with hs | ⟨hsp, _, _, hs⟩
    · rw [hs] at h
      simp at h
    · simp only [] at hsp
      simp [show s.pending = none from hsp]
  · simp [hp]

lemma step_buffered (cfg : VisionConfig) (O : InferOracle) (s : ConnState)
    (ev : FrameEv) :
    (step cfg O s ev).1.buffered = [] ∨
    (step cfg O s ev).1.buffered =
      dequeAppend cfg.maxBufferFrames s.buffered ev.data := by
  rw [step_unfold]
  simp only [composePhase_buffered]
  have hsch := schedulePhase_cases cfg ev.now (ingestPoll cfg O s ev).1
  rcases ingestPoll_cases cfg O s ev with ⟨hP, _⟩ | ⟨k, hp, hd, hP⟩ <;>
    rw [hP] at hsch ⊢ <;>
    rcases hsch with hs | ⟨_, _, _, hs⟩ <;> rw [hs] <;> simp


lemma dequeAppend_length_le (cap : Nat) (buf : List Frame) (x : Frame) :
    (dequeAppend cap buf x).length ≤ cap := by
  unfold dequeAppend
  simp [List.length_drop]
  omega

lemma dequeAppend_at_capacity (cap : Nat) (buf : List Frame) (x : Frame)
    (h1 : 1 ≤ cap) (h2 : buf.length = cap) :
    dequeAppend cap buf x = buf.drop 1 ++ [x] := by
  show List.drop ((buf ++ [x]).length - cap) (buf ++ [x]) = List.drop 1 buf ++ [x]
  have h3 : (buf ++ [x]).length - cap = 1 := by simp; omega
  rw [h3]
  exact List.drop_append_of_le_length (by omega)

lemma runSteps_length (cfg : VisionConfig) (O : InferOracle) :
    ∀ (evs : List FrameEv) (s : ConnState),
      ((runSteps cfg O s evs).2).length = evs.length := by
  intro evs
  induction evs with
  | nil => intro s; rfl
  | cons ev t ih => intro s; simp [runSteps, ih]

lemma runSteps_get (cfg : VisionConfig) (O : InferOracle) :
    ∀ (evs : List FrameEv) (s : ConnState) (i : Nat),
      ((runSteps cfg O s evs).2)[i]? =
        (evs[i]?).map
          (fun e => (step cfg O (runSteps cfg O s (evs.take i)).1 e).2) := by
  intro evs
  induction evs with
  | nil => intro s i; simp [runSteps]
  | cons ev t ih =>
    intro s i
    cases i with
    | zero => simp [runSteps]
    | succ n => simp [runSteps, ih]

lemma runSteps_take (cfg : VisionConfig) (O : InferOracle) :
    ∀ (evs : List FrameEv) (s : ConnState) (n : Nat),
      ((runSteps cfg O s evs).2).take n = (runSteps cfg O s (evs.take n)).2 := by
  intro evs
  induction evs with
  | nil => intro s n; simp [runSteps]
  | cons ev t ih =>
    intro s n
    cases n with
    | zero => simp [runSteps]
    | succ m => simp [runSteps, ih]

lemma runSteps_frameCount (cfg : VisionConfig) (O : InferOracle) :
    ∀ (evs : List FrameEv) (s : ConnState),
      (runSteps cfg O s evs).1.frameCount = s.frameCount + evs.length := by
  intro evs
  induction evs with
  | nil => intro s; simp [runSteps]
  | cons ev t ih =>
    intro s
    simp [runSteps, ih, step_frameCount]
    omega

lemma runSteps_latestOk (cfg : VisionConfig) (O : InferOracle) :
    ∀ (evs : List FrameEv) (s : ConnState), LatestOk s →
      LatestOk (runSteps cfg O s evs).1 := by
  intro evs
  induction evs with
  | nil => intro s h; exact h
  | cons ev t ih =>
    intro s h
    exact ih _ ((step_ack_spec cfg O s ev h).2.1)

lemma numDrains_cons (l : StepLog) (ls : List StepLog) :
    numDrains (l :: ls) = (if l.drained.isSome then 1 else 0) + numDrains ls := by
  by_cases h : l.drained.isSome <;>
    simp [numDrains, List.filter_cons, h, Nat.add_comm]

lemma numLaunches_cons (l : StepLog) (ls : List StepLog) :
    numLaunches (l :: ls) =
      (if l.launched.isSome then 1 else 0) + numLaunches ls := by
  by_cases h : l.launched.isSome <;>
    simp [numLaunches, List.filter_cons, h, Nat.add_comm]

lemma numDrains_append (a b : List StepLog) :
    numDrains (a ++ b) = numDrains a + numDrains b := by
  simp [numDrains, List.filter_append]

lemma runSteps_counts (cfg : VisionConfig) (O : InferOracle) :
    ∀ (evs : List FrameEv) (s : ConnState),
      pendCount (runSteps cfg O s evs).1.pending +
        numDrains (runSteps cfg O s evs).2 =
      pendCount s.pending + numLaunches (runSteps cfg O s evs).2 := by
  intro evs
  induction evs with
  | nil => intro s; simp [runSteps, numDrains, numLaunches]
  | cons ev t ih =>
    intro s
    have h1 := step_counts cfg O s ev
    have h2 := ih (step cfg O s ev).1
    simp only [runSteps, numDrains_cons, numLaunches_cons]
    omega

lemma runSteps_buffered_le (cfg : VisionConfig) (O : InferOracle) :
    ∀ (evs : List FrameEv) (s : ConnState),
      s.buffered.length ≤ cfg.maxBufferFrames →
      (runSteps cfg O s evs).1.buffered.length ≤ cfg.maxBufferFrames := by
  intro evs
  induction evs with
  | nil => intro s h; exact h
  | cons ev t ih =>
    intro s h
    refine ih _ ?_
    rcases step_buffered cfg O s ev with hb | hb <;> rw [hb]
    · simp
    · exact dequeAppend_length_le _ _ _


lemma schedulePhase_latest (cfg : VisionConfig) (now : Int) (s : ConnState) :
    (schedulePhase cfg now s).1.latest = s.latest := by
  rcases schedulePhase_state cfg now s with h | ⟨h, _⟩ <;> rw [h]

lemma runSteps_append (cfg : VisionConfig) (O : InferOracle) :
    ∀ (a b : List FrameEv) (s : ConnState),
      runSteps cfg O s (a ++ b) =
        ((runSteps cfg O (runSteps cfg O s a).1 b).1,
          (runSteps cfg O s a).2 ++ (runSteps cfg O (runSteps cfg O s a).1 b).2) := by
  intro a
  induction a with
  | nil => intro b s; simp [runSteps]
  | cons ev t ih => intro b s; simp [runSteps, ih]

lemma visionMaxBufferFrames_pos (raw : Int) : 1 ≤ visionMaxBufferFrames raw := by
  unfold visionMaxBufferFrames
  omega

lemma applyBufOps_length_le (cap : Nat) :
    ∀ (ops : List BufOp) (buf : List Frame), buf.length ≤ cap →
      (applyBufOps cap buf ops).length ≤ cap := by
  intro ops
  induction ops with
  | nil => intro buf h; exact h
  | cons op t ih =>
    intro buf h
    cases op with
    | append f => exact ih _ (dequeAppend_length_le _ _ _)
    | cut => exact ih _ (by simp [applyBufOp])

lemma modalSessionClose_ok (b : CloseBehavior) : modalSessionClose b = .ok () := by
  rcases b with ⟨r, c, cc⟩
  cases r <;> cases c <;> cases cc <;> rfl

lemma getElem?_lt_length {α : Type} (l : List α) (i : Nat) (a : α)
    (h : l[i]? = some a) : i < l.length := by
  by_contra hc
  rw [List.getElem?_eq_none (Nat.le_of_not_lt hc)] at h
  exact Option.noConfusion h

lemma runVision_ack_formula (cfg : VisionConfig) (O : InferOracle) (t : Int)
    (evs : List FrameEv) :
    ∀ i l e, ((runVision cfg O t evs).2)[i]? = some l → evs[i]? = some e →
      (l.ack = mergeAck (baseAck (i + 1) e.data.length) (drainedDict l) ∧
        ∀ out, l.drained = some out → ∃ k, out = O k) := by
  intro i l e hl he
  rw [runVision, runSteps_get, he] at hl
  simp only [Option.map_some'] at hl
  have hl2 := Option.some.inj hl
  have hlen : i < evs.length := getElem?_lt_length evs i e he
  have hLat : LatestOk (runSteps cfg O (initState t) (evs.take i)).1 :=
    runSteps_latestOk cfg O _ _ (Or.inl rfl)
  have hspec := step_ack_spec cfg O (runSteps cfg O (initState t) (evs.take i)).1 e hLat
  have hFrame : (runSteps cfg O (initState t) (evs.take i)).1.frameCount = i := by
    rw [runSteps_frameCount]
    simp [initState, List.length_take]
    omega
  constructor
  · have h1 := hspec.1
    rw [hl2, hFrame] at h1
    exact h1
  · intro out hout
    obtain ⟨k, _, hk, _⟩ := hspec.2.2 out (by rw [hl2]; exact hout)
    exact ⟨k, hk⟩

lemma runSteps_launch_prefix (cfg : VisionConfig) (O : InferOracle) (t : Int)
    (evs : List FrameEv) (i : Nat) (l : StepLog) (e : FrameEv)
    (he : evs[i]? = some e)
    (hl : ((runSteps cfg O (initState t) evs).2)[i]? = some l)
    (hlaunch : l.launched.isSome = true) :
    numLaunches (((runSteps cfg O (initState t) evs).2).take i) =
      numDrains (((runSteps cfg O (initState t) evs).2).take (i + 1)) := by
  rw [runSteps_get, he] at hl
  simp only [Option.map_some'] at hl
  have hl2 := Option.some.inj hl
  have htake : evs.take (i + 1) = evs.take i ++ [e] := by
    rw [List.take_succ, he]
    rfl
  rw [runSteps_take, runSteps_take, htake, runSteps_append, numDrains_append]
  have hdrain := step_launch_drain cfg O
    (runSteps cfg O (initState t) (evs.take i)).1 e (by rw [hl2]; exact hlaunch)
  rw [hl2] at hdrain
  have hcounts := runSteps_counts cfg O (evs.take i) (initState t)
  have hsingle : numDrains
      ((runSteps cfg O (runSteps cfg O (initState t) (evs.take i)).1 [e]).2) =
      if l.drained.isSome then 1 else 0 := by
    rw [show (runSteps cfg O (runSteps cfg O (initState t) (evs.take i)).1 [e]).2 =
        [(step cfg O (runSteps cfg O (initState t) (evs.take i)).1 e).2] from rfl]
    rw [hl2]
    by_cases hld : l.drained.isSome <;> simp [numDrains, List.filter, hld]
  rw [hsingle]
  have hpc : pendCount ((runSteps cfg O (initState t) (evs.take i)).1.pending) =
      if l.drained.isSome then 1 else 0 := by
    rw [hdrain]
    rfl
  have hpc0 : pendCount (initState t).pending = 0 := rfl
  omega


lemma mergeAck_singleton (base : Dict) (k : String) (v : PyVal)
    (hv : v ≠ PyVal.vnone) : mergeAck base [(k, v)] = dictSet base k v := by
  simp [mergeAck, dictTruthy, dictUpdate, dropNoneValues, hv]

/-- Claim C1: a completed inference outcome (success map or converted
error) is merged into exactly one acknowledgment: the ack of the very step
at which the completion is drained, which is the first ack emitted
strictly after the completion is observed.  Every step's ack equals the
bare `frame`/`bytes` payload merged with exactly the outcome drained at
that step (`drainedDict`), and a step that drains nothing sends the bare
payload — so a completed result appears in no earlier and no later ack. -/
theorem inference_result_delivered_exactly_once (cfg : VisionConfig)
    (O : InferOracle) (t : Int) (evs : List FrameEv) :
    ((runVision cfg O t evs).2).length = evs.length ∧
    (∀ (i : Nat) (l : StepLog) (e : FrameEv),
      ((runVision cfg O t evs).2)[i]? = some l → evs[i]? = some e →
      l.ack = mergeAck (baseAck (i + 1) e.data.length) (drainedDict l)) :=
  ⟨runSteps_length cfg O evs _,
    fun i l e hl he => (runVision_ack_formula cfg O t evs i l e hl he).1⟩

/-- Witness for C1 at a concrete two-frame run. -/
theorem inference_result_delivered_exactly_once_witness :
    cexLog0.ack = mergeAck (baseAck 1 1) (drainedDict cexLog0) :=
  (inference_result_delivered_exactly_once cexCfg cexFrameOracle 0 cexEvs2).2
    0 cexLog0 cexEv0 (by decide) (by decide)

/-- Claim C2: at most one inference is in flight at any point: every log
prefix has at most one more launch than drains, and a step that launches a
chunk does so only when every previously launched chunk has already been
drained (counting the drain performed earlier in the same step). -/
theorem at_most_one_inflight_inference (cfg : VisionConfig) (O : InferOracle)
    (t : Int) (evs : List FrameEv) :
    (∀ n, numLaunches (((runVision cfg O t evs).2).take n) ≤
        numDrains (((runVision cfg O t evs).2).take n) + 1) ∧
    (∀ (i : Nat) (l : StepLog), ((runVision cfg O t evs).2)[i]? = some l →
        l.launched.isSome = true →
        numLaunches (((runVision cfg O t evs).2).take i) =
          numDrains (((runVision cfg O t evs).2).take (i + 1))) := by
  constructor
  · intro n
    rw [runVision, runSteps_take]
    have h := runSteps_counts cfg O (evs.take n) (initState t)
    have hpc0 : pendCount (initState t).pending = 0 := rfl
    have hb : pendCount (runSteps cfg O (initState t) (evs.take n)).1.pending ≤ 1 := by
      unfold pendCount
      split <;> omega
    omega
  · intro i l hl hlaunch
    rw [runVision] at hl ⊢
    have hlen : i < ((runSteps cfg O (initState t) evs).2).length :=
      getElem?_lt_length _ i l hl
    rw [runSteps_length] at hlen
    exact runSteps_launch_prefix cfg O t evs i l _
      (List.getElem?_eq_getElem hlen) hl hlaunch

/-- Witness for C2 at a concrete two-frame run with a drain at step 1. -/
theorem at_most_one_inflight_inference_witness :
    numLaunches (((runVision cexCfg cexEmptyMsgOracle 0 cexEvs2).2).take 1) =
      numDrains (((runVision cexCfg cexEmptyMsgOracle 0 cexEvs2).2).take 2) :=
  (at_most_one_inflight_inference cexCfg cexEmptyMsgOracle 0 cexEvs2).2
    1 cexLog1err (by decide) (by decide)

/-- Claim C3 counterexample: the merge of an inference result into the ack
payload is a plain dict update, so a result map carrying a `frame` key
overwrites the monotonically increasing `frame` field: on the second frame
of this run the ack's `frame` field is 999, not 2. -/
theorem ack_frame_field_shadowed :
    ((runVision cexCfg cexFrameOracle 0 cexEvs2).2.map
        (fun l => dictGet l.ack "frame")) =
      [some (PyVal.vint 1), some (PyVal.vint 999)] ∧
    PyVal.vint 999 ≠ PyVal.vint 2 := by
  constructor
  · decide
  · decide

/-- Claim C3, amended: provided no drained inference result map carries a
`frame` or `bytes` key (the converted error map never does), every run of
N frames produces exactly N acks, in arrival order, the i-th carrying
`frame = i` and `bytes` equal to the byte length of the i-th payload
(including 0 for an empty frame). -/
theorem monotonic_ack_fields (cfg : VisionConfig) (O : InferOracle) (t : Int)
    (evs : List FrameEv)
    (hO : ∀ k p, p ∈ consumeInferenceTask (O k) →
      p.1 ≠ "frame" ∧ p.1 ≠ "bytes") :
    ((runVision cfg O t evs).2).length = evs.length ∧
    (∀ (i : Nat) (l : StepLog) (e : FrameEv),
      ((runVision cfg O t evs).2)[i]? = some l → evs[i]? = some e →
      dictGet l.ack "frame" = some (PyVal.vint (i + 1)) ∧
      dictGet l.ack "bytes" = some (PyVal.vint e.data.length)) := by
  refine ⟨runSteps_length cfg O evs _, ?_⟩
  intro i l e hl he
  obtain ⟨hack, horig⟩ := runVision_ack_formula cfg O t evs i l e hl he
  rw [hack]
  unfold mergeAck
  rcases hld : l.drained with _ | out
  · simp [drainedDict, hld, dictTruthy, dictGet_baseAck_frame,
      dictGet_baseAck_bytes]
  · obtain ⟨k, hk⟩ := horig out hld
    have hdd : drainedDict l = consumeInferenceTask (O k) := by
      simp [drainedDict, hld, hk]
    rw [hdd]
    by_cases hr : dictTruthy (consumeInferenceTask (O k))
    · rw [if_pos hr]
      have hkf : ∀ p ∈ dropNoneValues (consumeInferenceTask (O k)),
          p.1 ≠ "frame" := fun p hp => (hO k p (dropNoneValues_keys _ p hp)).1
      have hkb : ∀ p ∈ dropNoneValues (consumeInferenceTask (O k)),
          p.1 ≠ "bytes" := fun p hp => (hO k p (dropNoneValues_keys _ p hp)).2
      rw [dictGet_dictUpdate_ne _ _ _ hkf, dictGet_dictUpdate_ne _ _ _ hkb]
      exact ⟨dictGet_baseAck_frame _ _, dictGet_baseAck_bytes _ _⟩
    · rw [if_neg hr]
      exact ⟨dictGet_baseAck_frame _ _, dictGet_baseAck_bytes _ _⟩

/-- Witness for the amended C3 on the no-op backend. -/
theorem monotonic_ack_fields_witness :
    dictGet cexLog0.ack "frame" = some (PyVal.vint 1) ∧
    dictGet cexLog0.ack "bytes" = some (PyVal.vint 1) :=
  (monotonic_ack_fields cexCfg noopOracle 0 cexEvs2
      (fun k p hp => absurd hp (by simp [noopOracle, consumeInferenceTask]))).2
    0 cexLog0 cexEv0 (by decide) (by decide)


/-- Claim C4: on each received frame the chunk scheduler fires iff the
Inference Slot is empty (after the poll), the Frame Buffer is nonempty and
the time since `chunk_window_start` is at least the configured chunk
duration; and on firing it records the claimed chunk window, resets the
window start to `now` and increments the chunk counter by one. -/
theorem chunk_scheduler_fire_characterization (cfg : VisionConfig)
    (O : InferOracle) (s : ConnState) (ev : FrameEv) :
    ((step cfg O s ev).2.launched.isSome = true ↔
      ((ingestPoll cfg O s ev).1.pending = none ∧
        (ingestPoll cfg O s ev).1.buffered ≠ [] ∧
        ev.now - (ingestPoll cfg O s ev).1.chunkWindowStart ≥
          cfg.chunkSeconds)) ∧
    (∀ li, (step cfg O s ev).2.launched = some li →
      li.startS = max ((ingestPoll cfg O s ev).1.chunkWindowStart -
        s.startTime) 0 ∧
      li.endS = max (ev.now - s.startTime) li.startS ∧
      (step cfg O s ev).1.chunkWindowStart = ev.now ∧
      (step cfg O s ev).1.chunkCount = s.chunkCount + 1) := by
  constructor
  · exact schedulePhase_fire_iff cfg ev.now (ingestPoll cfg O s ev).1
  · intro li hli
    have hsch := schedulePhase_cases cfg ev.now (ingestPoll cfg O s ev).1
    rcases hsch with hs | ⟨hsp, hb, ht, hs⟩
    · rw [step_unfold, hs] at hli
      exact absurd hli (by simp)
    · rw [step_unfold, hs] at hli
      have hli2 := (Option.some.inj hli).symm
      have hst : (ingestPoll cfg O s ev).1.startTime = s.startTime :=
        (pollPhase_proj O ev.done _).2.2.1
      have hcc : (ingestPoll cfg O s ev).1.chunkCount = s.chunkCount :=
        (pollPhase_proj O ev.done _).1
      refine ⟨?_, ?_, ?_, ?_⟩
      · rw [hli2]
        simp [hst]
      · rw [hli2]
        simp [hst]
      · rw [step_unfold, composePhase_chunkWindowStart, hs]
      · rw [step_unfold, composePhase_chunkCount, hs]
        simp [hcc]

/-- Witness for C4 on the first frame of a fresh connection. -/
theorem chunk_scheduler_fire_characterization_witness :
    cexLaunch0.startS =
      max ((ingestPoll cexCfg noopOracle (initState 0) cexEv0).1.chunkWindowStart -
        (initState 0).startTime) 0 ∧
    cexLaunch0.endS = max (cexEv0.now - (initState 0).startTime)
      cexLaunch0.startS ∧
    (step cexCfg noopOracle (initState 0) cexEv0).1.chunkWindowStart =
      cexEv0.now ∧
    (step cexCfg noopOracle (initState 0) cexEv0).1.chunkCount =
      (initState 0).chunkCount + 1 :=
  (chunk_scheduler_fire_characterization cexCfg noopOracle (initState 0)
    cexEv0).2 cexLaunch0 (by decide)

/-- Claim C5: the configured capacity is floored at 1; the Frame Buffer
never exceeds its capacity under any sequence of appends and cuts (both at
the buffer level and over whole connection runs); and appending at
capacity evicts exactly the logically oldest frame, preserving the arrival
order of the remaining frames. -/
theorem frame_buffer_ring_semantics (raw : Int) (ops : List BufOp)
    (cfg : VisionConfig) (O : InferOracle) (t : Int) (evs : List FrameEv) :
    1 ≤ visionMaxBufferFrames raw ∧
    (applyBufOps (visionMaxBufferFrames raw) [] ops).length ≤
      visionMaxBufferFrames raw ∧
    (∀ (buf : List Frame) (f : Frame),
      buf.length = visionMaxBufferFrames raw →
      dequeAppend (visionMaxBufferFrames raw) buf f = buf.drop 1 ++ [f]) ∧
    (runVision cfg O t evs).1.buffered.length ≤ cfg.maxBufferFrames := by
  refine ⟨visionMaxBufferFrames_pos raw, ?_, ?_, ?_⟩
  · exact applyBufOps_length_le _ ops [] (by simp)
  · exact fun buf f h =>
      dequeAppend_at_capacity _ _ _ (visionMaxBufferFrames_pos raw) h
  · exact runSteps_buffered_le cfg O evs _ (by simp [initState])

/-- Witness for C5 at capacity 1. -/
theorem frame_buffer_ring_semantics_witness :
    dequeAppend (visionMaxBufferFrames 0) [[7]] [8] =
      List.drop 1 [[7]] ++ [[8]] :=
  (frame_buffer_ring_semantics 0 [] cexCfg noopOracle 0 []).2.2.1
    [[7]] [8] (by decide)

/-- Claim C6 counterexample: the failure counter is guarded by Python
truthiness of the merged `inference_error` value, so an exception whose
message is the empty string (e.g. a bare `ValueError()`) is drained and
converted, yet the counter stays 0 where the claim demands an increment
by exactly one. -/
theorem inference_failure_count_missed :
    (((runVision cexCfg cexEmptyMsgOracle 0 cexEvs2).2)[1]?.map
        StepLog.drained) = some (some (Except.error "")) ∧
    (runVision cexCfg cexEmptyMsgOracle 0 cexEvs2).1.inferenceFailures = 0 := by
  constructor
  · decide
  · decide

/-- Claim C6, amended: when a drained invocation raised a failure whose
message is non-empty, the coordinator converts it into an
`inference_error` field (rather than re-raising), increments the failure
counter by exactly one, and still emits the frame's ack with its `frame`
field; with an empty message the error field is still merged but the
truthiness guard leaves the counter unchanged. -/
theorem inference_failure_isolated (cfg : VisionConfig) (O : InferOracle)
    (s : ConnState) (ev : FrameEv) (k : Nat) (msg : String)
    (hL : LatestOk s) (hp : s.pending = some k) (hd : ev.done = true)
    (ho : O k = .error msg) (hm : msg ≠ "") :
    (step cfg O s ev).1.inferenceFailures = s.inferenceFailures + 1 ∧
    (step cfg O s ev).2.drained = some (Except.error msg) ∧
    dictGet (step cfg O s ev).2.ack "inference_error" =
      some (PyVal.vstr msg) ∧
    dictGet (step cfg O s ev).2.ack "frame" =
      some (PyVal.vint (s.frameCount + 1)) := by
  rcases ingestPoll_cases cfg O s ev with ⟨hP, hor⟩ | ⟨k2, hp2, hd2, hP⟩
  · rcases hor with h1 | h1
    · rw [h1] at hp
      exact Option.noConfusion hp
    · rw [h1] at hd
      exact Bool.noConfusion hd
  · have hkk : k2 = k := Option.some.inj (hp2.symm.trans hp)
    subst hkk
    have hr : consumeInferenceTask (O k2) =
        [("inference_error", PyVal.vstr msg)] := by
      rw [ho]
      simp [consumeInferenceTask]
    have htr : dictGetTruthy (consumeInferenceTask (O k2))
        "inference_error" = true := by
      rw [hr]
      simp [dictGetTruthy, dictGet, List.find?, PyVal.truthy, hm]
    have hdr : (step cfg O s ev).2.drained = some (Except.error msg) := by
      rw [step_unfold]
      show (ingestPoll cfg O s ev).2 = some (Except.error msg)
      rw [hP, ho]
    refine ⟨?_, hdr, ?_, ?_⟩
    · rw [step_unfold]
      show (composePhase ev.data.length _).1.inferenceFailures = _
      rw [composePhase_failures, schedulePhase_failures, hP]
      simp [htr]
    · have hspec := (step_ack_spec cfg O s ev hL).1
      have hdd : drainedDict (step cfg O s ev).2 =
          [("inference_error", PyVal.vstr msg)] := by
        simp [drainedDict, hdr, consumeInferenceTask]
      rw [hdd, mergeAck_singleton _ _ _ (by simp)] at hspec
      rw [hspec, dictGet_dictSet]
      simp
    · have hspec := (step_ack_spec cfg O s ev hL).1
      have hdd : drainedDict (step cfg O s ev).2 =
          [("inference_error", PyVal.vstr msg)] := by
        simp [drainedDict, hdr, consumeInferenceTask]
      rw [hdd, mergeAck_singleton _ _ _ (by simp)] at hspec
      rw [hspec, dictGet_dictSet]
      simp [dictGet_baseAck_frame]

/-- Witness for the amended C6 with a non-empty failure message. -/
theorem inference_failure_isolated_witness :
    (step cexCfg cexBoomOracle cexPendState cexEv1).1.inferenceFailures =
      cexPendState.inferenceFailures + 1 ∧
    (step cexCfg cexBoomOracle cexPendState cexEv1).2.drained =
      some (Except.error "boom") ∧
    dictGet (step cexCfg cexBoomOracle cexPendState cexEv1).2.ack
      "inference_error" = some (PyVal.vstr "boom") ∧
    dictGet (step cexCfg cexBoomOracle cexPendState cexEv1).2.ack
      "frame" = some (PyVal.vint (cexPendState.frameCount + 1)) :=
  inference_failure_isolated cexCfg cexBoomOracle cexPendState cexEv1 0
    "boom" (Or.inl rfl) rfl rfl rfl (by decide)

/-- Claim C7: missing or empty credentials, an unavailable Modal SDK, or
any exception raised during session initialization all make
`open_session` return the no-op session instead of raising (the embedding
is total precisely because every such path is caught in the source), and
`infer_chunk` on the no-op session always returns the empty result map. -/
theorem session_open_failure_degrades_to_noop (cfg : MConfig) (m : ModalEnv)
    (h : (strFalsy cfg.tokenId || strFalsy cfg.tokenSecret) = true ∨
      m.importOk = false ∨ initFailure m = true) :
    openSession cfg m = SessionKind.noop ∧
    (∀ (frames : List Frame) (a b : Int) (p : String),
      noopInferChunk frames a b p = .ok []) := by
  refine ⟨?_, fun _ _ _ _ => rfl⟩
  rcases h with h | h | h
  · simp [openSession, h]
  · by_cases hc : (strFalsy cfg.tokenId || strFalsy cfg.tokenSecret) = true
    · simp [openSession, hc]
    · simp [openSession, hc, h]
  · by_cases hc : (strFalsy cfg.tokenId || strFalsy cfg.tokenSecret) = true
    · simp [openSession, hc]
    · cases hio : m.importOk
      · simp [openSession, hc, hio]
      · cases hff : m.factoryFails <;> cases hfn : m.fromNameFails <;>
          cases hin : m.instantiateFails <;>
          cases hfc : m.factoryCallable <;>
          simp_all [openSession, initFailure]

/-- Witness for C7 with missing credentials in an otherwise healthy
environment. -/
theorem session_open_failure_degrades_to_noop_witness :
    openSession cexNoCredsConfig cexModalEnv = SessionKind.noop ∧
    (∀ (frames : List Frame) (a b : Int) (p : String),
      noopInferChunk frames a b p = .ok []) :=
  session_open_failure_degrades_to_noop cexNoCredsConfig cexModalEnv
    (Or.inl (by decide))


/-- Claim C8: for every teardown scenario — slot empty, slot holding a
completed task (drained with failures swallowed), or slot holding a
running task (cancelled, with the cancellation signal suppressed) — and
for every failure behaviour of the session release (all swallowed), the
teardown never raises and always produces the summary with the connection
totals and the guarded average-fps computation. -/
theorem teardown_always_summarizes (O : InferOracle) (sk : SessionKind)
    (cb : CloseBehavior) (pendingDone : Bool) (finalNow : Int)
    (s : ConnState) :
    teardown O sk cb pendingDone finalNow s =
      .ok { frames := s.frameCount, chunks := s.chunkCount,
            failures := s.inferenceFailures,
            fps := summaryFps s.frameCount (finalNow - s.startTime) } := by
  have hclose : sessionClose sk cb = .ok () := by
    cases sk
    · rfl
    · exact modalSessionClose_ok cb
  cases pendingDone <;> rcases hp : s.pending with _ | k <;>
    simp [teardown, hp, hclose, suppressCancelled, awaitCancelledTask]

/-- Claim C9: the per-frame step never waits for the in-flight inference:
when the slot is empty or the pending task is not done, the whole step is
independent of the task outcomes (it performs only the non-blocking
`done()` check), drains nothing, and still produces the frame's plain
acknowledgment in that same step. -/
theorem frame_step_nonblocking (cfg : VisionConfig) (s : ConnState)
    (ev : FrameEv) (O O₂ : InferOracle) (hL : LatestOk s)
    (h : s.pending = none ∨ ev.done = false) :
    step cfg O s ev = step cfg O₂ s ev ∧
    (step cfg O s ev).2.drained = none ∧
    (step cfg O s ev).2.ack = baseAck (s.frameCount + 1) ev.data.length := by
  have hP1 : ingestPoll cfg O s ev =
      ({ s with frameCount := s.frameCount + 1,
                buffered := dequeAppend cfg.maxBufferFrames s.buffered ev.data },
        none) := by
    rcases ingestPoll_cases cfg O s ev with ⟨hP, _⟩ | ⟨k, hp, hd, hP⟩
    · exact hP
    · exfalso
      rcases h with h1 | h1
      · rw [h1] at hp
        exact Option.noConfusion hp
      · rw [h1] at hd
        exact Bool.noConfusion hd
  have hP2 : ingestPoll cfg O₂ s ev =
      ({ s with frameCount := s.frameCount + 1,
                buffered := dequeAppend cfg.maxBufferFrames s.buffered ev.data },
        none) := by
    rcases ingestPoll_cases cfg O₂ s ev with ⟨hP, _⟩ | ⟨k, hp, hd, hP⟩
    · exact hP
    · exfalso
      rcases h with h1 | h1
      · rw [h1] at hp
        exact Option.noConfusion hp
      · rw [h1] at hd
        exact Bool.noConfusion hd
  have hdr : (step cfg O s ev).2.drained = none := by
    rw [step_unfold]
    show (ingestPoll cfg O s ev).2 = none
    rw [hP1]
  refine ⟨?_, hdr, ?_⟩
  · rw [step_unfold, step_unfold, hP1, hP2]
  · have hspec := (step_ack_spec cfg O s ev hL).1
    have hdd : drainedDict (step cfg O s ev).2 = [] := by
      simp [drainedDict, hdr]
    rw [hdd, mergeAck_nil] at hspec
    exact hspec

/-- Witness for C9 on a fresh connection under two different backends. -/
theorem frame_step_nonblocking_witness :
    step cexCfg noopOracle (initState 0) cexEv0 =
      step cexCfg cexBoomOracle (initState 0) cexEv0 ∧
    (step cexCfg noopOracle (initState 0) cexEv0).2.drained = none ∧
    (step cexCfg noopOracle (initState 0) cexEv0).2.ack = baseAck 1 1 :=
  frame_step_nonblocking cexCfg (initState 0) cexEv0 noopOracle cexBoomOracle
    (Or.inl rfl) (Or.inl rfl)

/-- Claim C10: an empty completed result map is never merged into any ack
— on the no-op session every ack is exactly the two-field
`frame`/`bytes` payload — and at the step that drains an empty result the
stored pending result is left as the (falsy) empty dict rather than being
cleared at ack time; it is only replaced when the next computation is
drained. -/
theorem noop_session_plain_acks (cfg : VisionConfig) (t : Int)
    (evs : List FrameEv) :
    (∀ (i : Nat) (l : StepLog) (e : FrameEv),
      ((runVision cfg noopOracle t evs).2)[i]? = some l → evs[i]? = some e →
      l.ack = baseAck (i + 1) e.data.length) ∧
    (∀ (O : InferOracle) (s : ConnState) (ev : FrameEv) (k : Nat),
      LatestOk s → s.pending = some k → ev.done = true →
      consumeInferenceTask (O k) = [] →
      (step cfg O s ev).1.latest = some [] ∧
      (step cfg O s ev).2.ack = baseAck (s.frameCount + 1) ev.data.length) := by
  constructor
  · intro i l e hl he
    obtain ⟨hack, horig⟩ := runVision_ack_formula cfg noopOracle t evs i l e hl he
    rw [hack]
    rcases hld : l.drained with _ | out
    · simp [drainedDict, hld, mergeAck_nil]
    · obtain ⟨k, hk⟩ := horig out hld
      have hdd : drainedDict l = [] := by
        simp [drainedDict, hld, hk, noopOracle, consumeInferenceTask]
      rw [hdd, mergeAck_nil]
  · intro O s ev k hL hp hd hr
    rcases ingestPoll_cases cfg O s ev with ⟨hP, hor⟩ | ⟨k2, hp2, hd2, hP⟩
    · exfalso
      rcases hor with h1 | h1
      · rw [h1] at hp
        exact Option.noConfusion hp
      · rw [h1] at hd
        exact Bool.noConfusion hd
    · have hkk : k2 = k := Option.some.inj (hp2.symm.trans hp)
      subst hkk
      have hlat : (ingestPoll cfg O s ev).1.latest = some [] := by
        rw [hP]
        simp [hr]
      have hlat2 :
          (schedulePhase cfg ev.now (ingestPoll cfg O s ev).1).1.latest =
            some [] := by
        rw [schedulePhase_latest]
        exact hlat
      constructor
      · rw [step_unfold]
        show (composePhase ev.data.length _).1.latest = some []
        rw [composePhase_base _ _ (Or.inr hlat2)]
        exact hlat2
      · have hspec := (step_ack_spec cfg O s ev hL).1
        have hdr : (step cfg O s ev).2.drained = some (O k2) := by
          rw [step_unfold]
          show (ingestPoll cfg O s ev).2 = some (O k2)
          rw [hP]
        have hdd : drainedDict (step cfg O s ev).2 = [] := by
          simp [drainedDict, hdr, hr]
        rw [hdd, mergeAck_nil] at hspec
        exact hspec

/-- Witness for C10 on a concrete no-op run. -/
theorem noop_session_plain_acks_witness :
    cexLog0.ack = baseAck 1 1 :=
  (noop_session_plain_acks cexCfg 0 cexEvs2).1 0 cexLog0 cexEv0
    (by decide) (by decide)

end Vision
